import Mathlib

/-!
Shallow embedding of the combat/initiative turn-order engine of a D&D
companion web application.

The embedded code:
* `shared/schema.ts` — the `Combatant`, `GameSession` and `StatusEffect`
  record shapes (timestamps are omitted; no claim mentions them).
* `server/storage.ts` / `MemStorage` — an in-memory store keyed by id.
  JavaScript `Map`s are insertion-ordered, so the store is modelled as
  insertion-ordered lists of records; `Map.set` on an existing key
  replaces the value in place and `Map.delete` removes it.
* the Express routes `POST .../combat/start`, `POST .../combat/next-turn`
  and `POST .../combat/end`, and the WebSocket `broadcast` helper.
* the client helpers `updateHP` and `removeStatusEffect` of
  `enhanced-initiative-tracker.tsx` and its `sortedCombatants` view.

JavaScript `Array.prototype.sort` is a stable sort (guaranteed since
ES2019).  With the comparator `(a, b) => b.initiative - a.initiative`,
`a` may be placed before `b` exactly when `b.initiative ≤ a.initiative`;
a stable sort for a total preorder is extensionally unique, so it is
modelled by `List.insertionSort` over that relation, which is stable.
-/

/-- Status effect attached to a combatant (`shared/schema.ts`). -/
structure StatusEffect where
  name : String
  description : Option String := none
  duration : Option Int := none
  source : Option String := none
deriving DecidableEq

/-- Combatant row (`shared/schema.ts`, table `combatants`; `createdAt` omitted). -/
structure Combatant where
  id : String
  sessionId : String
  name : String
  initiative : Int
  armorClass : Int
  currentHP : Int
  maxHP : Int
  isActive : Bool
  characterId : Option String := none
  statusEffects : List StatusEffect := []
  initiativeOrder : Int := 0
deriving DecidableEq

/-- Game-session row (`shared/schema.ts`, table `gameSessions`; `createdAt` omitted). -/
structure GameSession where
  id : String
  name : String
  currentRound : Int
  isActive : Bool
  inCombat : Bool
  currentTurn : Int
  dmUserId : Option String := none
deriving DecidableEq

/-- Partial update of a session (`Partial<GameSession>` in TypeScript):
each field is optionally present. -/
structure SessionUpdates where
  name : Option String := none
  currentRound : Option Int := none
  isActive : Option Bool := none
  inCombat : Option Bool := none
  currentTurn : Option Int := none
  dmUserId : Option (Option String) := none
deriving DecidableEq

/-- Partial update of a combatant (`Partial<Combatant>` in TypeScript). -/
structure CombatantUpdates where
  sessionId : Option String := none
  name : Option String := none
  initiative : Option Int := none
  armorClass : Option Int := none
  currentHP : Option Int := none
  maxHP : Option Int := none
  isActive : Option Bool := none
  characterId : Option (Option String) := none
  statusEffects : Option (List StatusEffect) := none
  initiativeOrder : Option Int := none
deriving DecidableEq

/-- Spread-merge `{...session, ...updates}` (storage `updateSession`). -/
def applySessionUpdates (s : GameSession) (u : SessionUpdates) : GameSession :=
  { id := s.id,
    name := u.name.getD s.name,
    currentRound := u.currentRound.getD s.currentRound,
    isActive := u.isActive.getD s.isActive,
    inCombat := u.inCombat.getD s.inCombat,
    currentTurn := u.currentTurn.getD s.currentTurn,
    dmUserId := u.dmUserId.getD s.dmUserId }

/-- Spread-merge `{...combatant, ...updates}` (storage `updateCombatant`). -/
def applyCombatantUpdates (c : Combatant) (u : CombatantUpdates) : Combatant :=
  { id := c.id,
    sessionId := u.sessionId.getD c.sessionId,
    name := u.name.getD c.name,
    initiative := u.initiative.getD c.initiative,
    armorClass := u.armorClass.getD c.armorClass,
    currentHP := u.currentHP.getD c.currentHP,
    maxHP := u.maxHP.getD c.maxHP,
    isActive := u.isActive.getD c.isActive,
    characterId := u.characterId.getD c.characterId,
    statusEffects := u.statusEffects.getD c.statusEffects,
    initiativeOrder := u.initiativeOrder.getD c.initiativeOrder }

/-- Ordering used by the initiative sort: `a` may come before `b` under the
comparator `(a, b) => b.initiative - a.initiative` exactly when
`b.initiative ≤ a.initiative`. -/
def initiativeGE (a b : Combatant) : Prop := b.initiative ≤ a.initiative

instance : DecidableRel initiativeGE :=
  fun a b => Int.decLe b.initiative a.initiative

instance : IsTotal Combatant initiativeGE :=
  ⟨fun a b => le_total b.initiative a.initiative⟩

instance : IsTrans Combatant initiativeGE :=
  ⟨fun _ _ _ h1 h2 => le_trans h2 h1⟩

/-- Stable sort by initiative descending: the model of
`.sort((a, b) => b.initiative - a.initiative)` used both by
`MemStorage.getCombatants` and by the client `sortedCombatants` view. -/
def sortByInitiativeDesc (l : List Combatant) : List Combatant :=
  List.insertionSort initiativeGE l

/-- In-memory store (`MemStorage`): insertion-ordered collections keyed by
unique `id`. -/
structure Storage where
  sessions : List GameSession
  combatants : List Combatant
deriving DecidableEq

/-- Storage lookup `sessions.get(id)`. -/
def getGameSession (st : Storage) (sid : String) : Option GameSession :=
  st.sessions.find? (fun s => s.id == sid)

/-- Storage `updateSession`: `undefined` when the id is absent, otherwise
replaces the stored record with the spread-merge and returns it. -/
def updateGameSession (st : Storage) (sid : String) (u : SessionUpdates) :
    Storage × Option GameSession :=
  match st.sessions.find? (fun s => s.id == sid) with
  | none => (st, none)
  | some s =>
    let s' := applySessionUpdates s u
    ({ st with sessions := st.sessions.map (fun t => if t.id == sid then s' else t) },
     some s')

/-- Storage lookup `combatants.get(id)`. -/
def getCombatant (st : Storage) (cid : String) : Option Combatant :=
  st.combatants.find? (fun c => c.id == cid)

/-- `MemStorage.getCombatants`: filter the roster of one session and sort it
by initiative descending. -/
def getCombatants (st : Storage) (sid : String) : List Combatant :=
  sortByInitiativeDesc (st.combatants.filter (fun c => c.sessionId == sid))

/-- Storage `updateCombatant`: `undefined` when the id is absent, otherwise
replaces the stored record with the spread-merge and returns it. -/
def updateCombatant (st : Storage) (cid : String) (u : CombatantUpdates) :
    Storage × Option Combatant :=
  match st.combatants.find? (fun c => c.id == cid) with
  | none => (st, none)
  | some c =>
    let c' := applyCombatantUpdates c u
    ({ st with combatants := st.combatants.map (fun t => if t.id == cid then c' else t) },
     some c')

/-- Storage `deleteCombatant`: `Map.delete` removes the entry and reports
whether the key was present. -/
def deleteCombatant (st : Storage) (cid : String) : Storage × Bool :=
  ({ st with combatants := st.combatants.filter (fun c => !(c.id == cid)) },
   st.combatants.any (fun c => c.id == cid))

/-- JavaScript array indexing `arr[i]`: `undefined` for a negative index or
an index at or past the end. -/
def jsIndex {α : Type} (l : List α) (i : Int) : Option α :=
  if i < 0 then none else l.get? i.toNat

/-- Turn/round transition of the `next-turn` route (routes lines 262-268):
`nextTurn = currentTurn + 1`; when `nextTurn >= combatants.length` it wraps
to 0 and the round is incremented. -/
def advanceSession (rosterLen : Nat) (s : GameSession) : GameSession :=
  if s.currentTurn + 1 ≥ (rosterLen : Int) then
    { s with currentTurn := 0, currentRound := s.currentRound + 1 }
  else
    { s with currentTurn := s.currentTurn + 1 }

/-- Observable outcome of the `next-turn` route: 404, or the JSON response
(the possibly-`undefined` updated session) together with the
`activeCombatant` carried by the `turn_changed` broadcast. -/
inductive TurnResult where
  | notFound : TurnResult
  | ok (updated : Option GameSession) (activeCombatant : Option Combatant) : TurnResult
deriving DecidableEq

/-- Observable outcome of the `combat/start` and `combat/end` routes. -/
inductive CombatControlResult where
  | notFound : CombatControlResult
  | ok (session : GameSession) : CombatControlResult
deriving DecidableEq

/-- `POST /api/sessions/:sessionId/combat/next-turn` (routes lines 253-284). -/
def nextTurnRoute (st : Storage) (sid : String) : Storage × TurnResult :=
  let cs := getCombatants st sid
  match getGameSession st sid with
  | none => (st, TurnResult.notFound)
  | some s =>
    let s' := advanceSession cs.length s
    let r := updateGameSession st sid
      { currentTurn := some s'.currentTurn, currentRound := some s'.currentRound }
    (r.1, TurnResult.ok r.2 (jsIndex cs s'.currentTurn))

/-- `POST /api/sessions/:sessionId/combat/start` (routes lines 234-251):
sets `inCombat`, `currentTurn = 0`, `currentRound = 1`; 404 when the
session id is unknown.  No roster check is performed. -/
def startCombatRoute (st : Storage) (sid : String) : Storage × CombatControlResult :=
  let r := updateGameSession st sid
    { inCombat := some true, currentTurn := some 0, currentRound := some 1 }
  match r.2 with
  | none => (r.1, CombatControlResult.notFound)
  | some s => (r.1, CombatControlResult.ok s)

/-- `POST /api/sessions/:sessionId/combat/end` (routes lines 286-302):
sets `inCombat = false` and `currentTurn = 0`; `currentRound` is not part
of the update object. -/
def endCombatRoute (st : Storage) (sid : String) : Storage × CombatControlResult :=
  let r := updateGameSession st sid
    { inCombat := some false, currentTurn := some 0 }
  match r.2 with
  | none => (r.1, CombatControlResult.notFound)
  | some s => (r.1, CombatControlResult.ok s)

/-- Numeric value of `WebSocket.OPEN`. -/
def WS_OPEN : Nat := 1

/-- Connected WebSocket client: only its `readyState` matters to `broadcast`. -/
structure WsClient where
  clientId : Nat
  readyState : Nat
deriving DecidableEq

/-- The `broadcast` helper (routes lines 30-37): the message is serialized
once before the loop, and `client.send(message)` is called for exactly the
clients whose `readyState` is `OPEN`, in iteration order; the others are
skipped.  The returned list is the trace of `send` calls. -/
def broadcast : List WsClient → String → List (WsClient × String)
  | [], _ => []
  | c :: cs, message =>
    if c.readyState == WS_OPEN then (c, message) :: broadcast cs message
    else broadcast cs message

/-- Client `updateHP` clamp (`enhanced-initiative-tracker.tsx` lines 431-437):
`Math.max(0, Math.min(combatant.maxHP, newHP))`. -/
def updateHPValue (maxHP newHP : Int) : Int :=
  max 0 (min maxHP newHP)

/-- Client `updateHP`: issues a combatant update whose `currentHP` is the
clamped value; it is issued unconditionally (never rejected). -/
def clientUpdateHP (c : Combatant) (newHP : Int) : CombatantUpdates :=
  { currentHP := some (updateHPValue c.maxHP newHP) }

/-- Client `removeStatusEffect` (`enhanced-initiative-tracker.tsx` lines
455-462): `effects.filter((_, index) => index !== effectIndex)`. -/
def removeStatusEffect (effects : List StatusEffect) (i : Int) : List StatusEffect :=
  (effects.enum.filter (fun p => ((p.1 : Int) != i))).map Prod.snd

/-! ### Helper lemmas about the keyed-list store -/

/-- When `find?` locates an element and the replacement also satisfies the
predicate, replacing every match leaves the replacement as first match. -/
theorem find?_map_replace {α : Type} {p : α → Bool} {l : List α} {s s' : α}
    (h : l.find? p = some s) (h' : p s' = true) :
    (l.map (fun t => if p t then s' else t)).find? p = some s' := by
  induction l with
  | nil => simp at h
  | cons a l ih =>
    by_cases hpa : p a = true
    · simp [hpa, h']
    · rw [List.find?_cons_of_neg _ hpa] at h
      simp only [List.map_cons, if_neg hpa]
      rw [List.find?_cons_of_neg _ hpa]
      exact ih h

/-- Replacing the matches of `p` does not disturb a `find?` for a predicate
`q` that is disjoint from `p` and not satisfied by the replacement. -/
theorem find?_map_replace_of_ne {α : Type} {p q : α → Bool} {l : List α} {s' : α}
    (hpq : ∀ t, p t = true → q t = false) (hs' : q s' = false) :
    (l.map (fun t => if p t then s' else t)).find? q = l.find? q := by
  induction l with
  | nil => simp
  | cons a l ih =>
    by_cases hpa : p a = true
    · have hqa : q a = false := hpq a hpa
      simp only [List.map_cons, if_pos hpa]
      rw [List.find?_cons_of_neg _ (by simp [hs']),
        List.find?_cons_of_neg _ (by simp [hqa])]
      exact ih
    · simp only [List.map_cons, if_neg hpa]
      by_cases hqa : q a = true
      · rw [List.find?_cons_of_pos _ hqa, List.find?_cons_of_pos _ hqa]
      · rw [List.find?_cons_of_neg _ hqa, List.find?_cons_of_neg _ hqa]
        exact ih

/-- Characterization of `updateSession` on a present id: the stored record
becomes the spread-merge, which is also returned and subsequently read back. -/
theorem updateGameSession_found {st : Storage} {sid : String} {s : GameSession}
    (u : SessionUpdates) (h : getGameSession st sid = some s) :
    updateGameSession st sid u =
      ({ st with sessions :=
            st.sessions.map (fun t => if t.id == sid then applySessionUpdates s u else t) },
       some (applySessionUpdates s u)) ∧
    getGameSession (updateGameSession st sid u).1 sid = some (applySessionUpdates s u) := by
  unfold getGameSession at h
  have h1 : updateGameSession st sid u =
      ({ st with sessions :=
            st.sessions.map (fun t => if t.id == sid then applySessionUpdates s u else t) },
       some (applySessionUpdates s u)) := by
    unfold updateGameSession
    rw [h]
  refine ⟨h1, ?_⟩
  rw [h1]
  have hps := List.find?_some h
  have hps' : ((applySessionUpdates s u).id == sid) = true := hps
  exact find?_map_replace h hps'

/-- Example session and storage used to instantiate the turn-advance theorems. -/
def exSession1 : GameSession :=
  { id := "s1", name := "game", currentRound := 1, isActive := true,
    inCombat := true, currentTurn := 0 }

/-- Example one-combatant roster storage. -/
def exStorage1 : Storage :=
  { sessions := [exSession1],
    combatants := [{ id := "c1", sessionId := "s1", name := "A", initiative := 10,
                     armorClass := 12, currentHP := 5, maxHP := 5, isActive := false }] }

/-- On a present session id the `next-turn` route stores and reports the
advanced session, and reports the combatant the advanced turn indexes in
the sorted roster. -/
theorem nextTurnRoute_found {st : Storage} {sid : String} {s : GameSession}
    (h : getGameSession st sid = some s) :
    nextTurnRoute st sid =
      ({ st with sessions :=
            st.sessions.map (fun t => if t.id == sid then advanceSession (getCombatants st sid).length s else t) },
       TurnResult.ok (some (advanceSession (getCombatants st sid).length s))
         (jsIndex (getCombatants st sid)
           (advanceSession (getCombatants st sid).length s).currentTurn)) := by
  have hupd := updateGameSession_found
    { currentTurn := some (advanceSession (getCombatants st sid).length s).currentTurn,
      currentRound := some (advanceSession (getCombatants st sid).length s).currentRound } h
  have key : applySessionUpdates s
      { currentTurn := some (advanceSession (getCombatants st sid).length s).currentTurn,
        currentRound := some (advanceSession (getCombatants st sid).length s).currentRound } =
      advanceSession (getCombatants st sid).length s := by
    unfold advanceSession applySessionUpdates
    by_cases hc : s.currentTurn + 1 ≥ ((getCombatants st sid).length : Int)
    · simp only [if_pos hc, Option.getD_some, Option.getD_none]
    · simp only [if_neg hc, Option.getD_some, Option.getD_none]
  unfold nextTurnRoute
  rw [h]
  dsimp only
  rw [hupd.1]
  dsimp only
  rw [key]

/-- Reading back the session after a found `next-turn` call yields the
advanced session. -/
theorem nextTurnRoute_found_get {st : Storage} {sid : String} {s : GameSession}
    (h : getGameSession st sid = some s) :
    getGameSession (nextTurnRoute st sid).1 sid =
      some (advanceSession (getCombatants st sid).length s) := by
  rw [nextTurnRoute_found h]
  have hid : (advanceSession (getCombatants st sid).length s).id = s.id := by
    unfold advanceSession
    by_cases hc : s.currentTurn + 1 ≥ ((getCombatants st sid).length : Int)
    · simp only [if_pos hc]
    · simp only [if_neg hc]
  unfold getGameSession at h
  have hps := List.find?_some h
  have hps' : ((advanceSession (getCombatants st sid).length s).id == sid) = true := by
    rw [hid]
    exact hps
  exact find?_map_replace h hps'

/-- C1: the `next-turn` route computes `next = currentTurn + 1`, wrapping to
0 and incrementing `currentRound` exactly when `next >= len(orderedRoster)`;
it stores `currentTurn = next` and reports the combatant at index `next` of
the ordered roster (`undefined` when the roster is empty). -/
theorem nextTurn_spec (st : Storage) (sid : String) (s : GameSession)
    (h : getGameSession st sid = some s) :
    (nextTurnRoute st sid).2 =
      TurnResult.ok
        (some { s with
          currentTurn :=
            if s.currentTurn + 1 ≥ ((getCombatants st sid).length : Int) then 0
            else s.currentTurn + 1,
          currentRound :=
            if s.currentTurn + 1 ≥ ((getCombatants st sid).length : Int) then
              s.currentRound + 1
            else s.currentRound })
        (jsIndex (getCombatants st sid)
          (if s.currentTurn + 1 ≥ ((getCombatants st sid).length : Int) then 0
           else s.currentTurn + 1)) ∧
    getGameSession (nextTurnRoute st sid).1 sid =
      some { s with
        currentTurn :=
          if s.currentTurn + 1 ≥ ((getCombatants st sid).length : Int) then 0
          else s.currentTurn + 1,
        currentRound :=
          if s.currentTurn + 1 ≥ ((getCombatants st sid).length : Int) then
            s.currentRound + 1
          else s.currentRound } := by
  have hadv : advanceSession (getCombatants st sid).length s =
      { s with
        currentTurn :=
          if s.currentTurn + 1 ≥ ((getCombatants st sid).length : Int) then 0
          else s.currentTurn + 1,
        currentRound :=
          if s.currentTurn + 1 ≥ ((getCombatants st sid).length : Int) then
            s.currentRound + 1
          else s.currentRound } := by
    unfold advanceSession
    by_cases hc : s.currentTurn + 1 ≥ ((getCombatants st sid).length : Int)
    · simp only [if_pos hc]
    · simp only [if_neg hc]
  constructor
  · rw [nextTurnRoute_found h]
    rw [hadv]
  · rw [nextTurnRoute_found_get h, hadv]

/-- Witness for C1 at a one-combatant roster: advancing from turn 0 wraps to
turn 0 and increments the round, and the active combatant is reported. -/
theorem nextTurn_spec_witness :
    getGameSession exStorage1 "s1" = some exSession1 ∧
    getGameSession (nextTurnRoute exStorage1 "s1").1 "s1" =
      some { exSession1 with currentTurn := 0, currentRound := 2 } := by
  refine ⟨rfl, ?_⟩
  have h := (nextTurn_spec exStorage1 "s1" exSession1 rfl).2
  simpa using h

/-- Example storage whose session has an empty roster. -/
def emptyRosterStorage : Storage :=
  { sessions := [exSession1], combatants := [] }

/-- C2 counterexample: with zero combatants the `next-turn` route is neither
a no-op nor an error signal — it mutates the stored session and answers
success; the `start` route likewise succeeds without any roster check. -/
theorem emptyRoster_guard_cex :
    (nextTurnRoute emptyRosterStorage "s1").1 ≠ emptyRosterStorage ∧
    (nextTurnRoute emptyRosterStorage "s1").2 ≠ TurnResult.notFound ∧
    (startCombatRoute emptyRosterStorage "s1").2 ≠ CombatControlResult.notFound := by
  decide

/-- C2 (amended): the operations are not guarded against an empty roster:
`start` updates the session without consulting the roster, and `next-turn`
on a session with a nonnegative `currentTurn` and zero combatants silently
sets `currentTurn = 0`, increments `currentRound`, and reports success with
no active combatant. -/
theorem emptyRoster_behavior (st : Storage) (sid : String) (s : GameSession)
    (h : getGameSession st sid = some s) (ht : 0 ≤ s.currentTurn)
    (hempty : getCombatants st sid = []) :
    (nextTurnRoute st sid).2 =
      TurnResult.ok (some { s with currentTurn := 0, currentRound := s.currentRound + 1 })
        none ∧
    getGameSession (nextTurnRoute st sid).1 sid =
      some { s with currentTurn := 0, currentRound := s.currentRound + 1 } ∧
    (startCombatRoute st sid).2 =
      CombatControlResult.ok { s with inCombat := true, currentTurn := 0, currentRound := 1 } := by
  have h0 : ((getCombatants st sid).length : Int) = 0 := by
    rw [hempty]
    rfl
  have hadv : advanceSession (getCombatants st sid).length s =
      { s with currentTurn := 0, currentRound := s.currentRound + 1 } := by
    unfold advanceSession
    rw [h0]
    rw [if_pos (by omega)]
  refine ⟨?_, ?_, ?_⟩
  · rw [nextTurnRoute_found h, hadv, hempty]
    rfl
  · rw [nextTurnRoute_found_get h, hadv]
  · have hupd := updateGameSession_found
      { inCombat := some true, currentTurn := some 0, currentRound := some 1 } h
    unfold startCombatRoute
    rw [hupd.1]
    rfl

/-- Witness for the amended C2 at a concrete empty-roster storage. -/
theorem emptyRoster_behavior_witness :
    getGameSession emptyRosterStorage "s1" = some exSession1 ∧
    0 ≤ exSession1.currentTurn ∧
    getCombatants emptyRosterStorage "s1" = [] ∧
    getGameSession (nextTurnRoute emptyRosterStorage "s1").1 "s1" =
      some { exSession1 with currentTurn := 0, currentRound := exSession1.currentRound + 1 } ∧
    (startCombatRoute emptyRosterStorage "s1").2 =
      CombatControlResult.ok
        { exSession1 with inCombat := true, currentTurn := 0, currentRound := 1 } := by
  have h := emptyRoster_behavior emptyRosterStorage "s1" exSession1 rfl (by decide) rfl
  exact ⟨rfl, by decide, rfl, h.2.1, h.2.2⟩

/-- Iterating the turn advance from turn 0 below the wrap point just walks
the index upward, leaving every other session field alone. -/
theorem advanceSession_iterate (N : Nat) (s : GameSession) (hs : s.currentTurn = 0) :
    ∀ k : Nat, k < N → (advanceSession N)^[k] s = { s with currentTurn := (k : Int) } := by
  intro k
  induction k with
  | zero =>
    intro _
    cases s
    simp_all
  | succ k ih =>
    intro hk
    rw [Function.iterate_succ_apply', ih (by omega)]
    unfold advanceSession
    dsimp only
    rw [if_neg (by omega)]
    have hcast : ((k : Int) + 1) = ((k + 1 : Nat) : Int) := by push_cast; ring
    rw [hcast]

/-- C4 (amended: rosters of length N ≥ 1): starting from `currentTurn = 0`,
N applications of the advance-turn transition return `currentTurn` to 0 and
increment `currentRound` by exactly 1. -/
theorem advanceTurn_cycle (N : Nat) (s : GameSession) (hs : s.currentTurn = 0)
    (hN : 1 ≤ N) :
    ((advanceSession N)^[N] s).currentTurn = 0 ∧
    ((advanceSession N)^[N] s).currentRound = s.currentRound + 1 := by
  obtain ⟨M, rfl⟩ : ∃ M, N = M + 1 := ⟨N - 1, by omega⟩
  rw [Function.iterate_succ_apply', advanceSession_iterate (M + 1) s hs M (by omega)]
  unfold advanceSession
  dsimp only
  rw [if_pos (by omega)]
  exact ⟨rfl, rfl⟩

/-- C4 counterexample: for a roster of length N = 0, applying the advance
operation N times (zero applications) leaves `currentRound` unchanged, so
the round counter does not increase by exactly 1 as claimed. -/
theorem advanceTurn_cycle_cex :
    ¬ (((advanceSession 0)^[0] exSession1).currentTurn = 0 ∧
       ((advanceSession 0)^[0] exSession1).currentRound = exSession1.currentRound + 1) := by
  decide

/-- Witness for the amended C4 at N = 2. -/
theorem advanceTurn_cycle_witness :
    exSession1.currentTurn = 0 ∧ 1 ≤ 2 ∧
    (((advanceSession 2)^[2] exSession1).currentTurn = 0 ∧
     ((advanceSession 2)^[2] exSession1).currentRound = exSession1.currentRound + 1) :=
  ⟨rfl, by omega, advanceTurn_cycle 2 exSession1 rfl (by omega)⟩

/-- C6: the end-combat route stores `inCombat = false` and `currentTurn = 0`
while `currentRound` keeps exactly its previous value. -/
theorem endCombat_spec (st : Storage) (sid : String) (s : GameSession)
    (h : getGameSession st sid = some s) :
    (endCombatRoute st sid).2 =
      CombatControlResult.ok { s with inCombat := false, currentTurn := 0 } ∧
    getGameSession (endCombatRoute st sid).1 sid =
      some { s with inCombat := false, currentTurn := 0 } ∧
    ({ s with inCombat := false, currentTurn := 0 } : GameSession).currentRound
      = s.currentRound := by
  have hupd := updateGameSession_found { inCombat := some false, currentTurn := some 0 } h
  refine ⟨?_, ?_, rfl⟩
  · unfold endCombatRoute
    rw [hupd.1]
    rfl
  · have hfst : (endCombatRoute st sid).1 =
        (updateGameSession st sid { inCombat := some false, currentTurn := some 0 }).1 := by
      unfold endCombatRoute
      rw [hupd.1]
    rw [hfst, hupd.2]
    rfl

/-- Witness for C6 at a concrete storage. -/
theorem endCombat_spec_witness :
    getGameSession exStorage1 "s1" = some exSession1 ∧
    getGameSession (endCombatRoute exStorage1 "s1").1 "s1" =
      some { exSession1 with inCombat := false, currentTurn := 0 } :=
  ⟨rfl, (endCombat_spec exStorage1 "s1" exSession1 rfl).2.1⟩

/-- C3: the order computation is a stable descending sort on `initiative`:
it is pairwise descending, a permutation of its input, equal-initiative
combatants keep their original relative order (the sublist at any fixed
initiative value is untouched), and re-sorting a sorted roster is the
identity (idempotence). -/
theorem computeOrder_stable_sort (l : List Combatant) :
    (sortByInitiativeDesc l).Pairwise (fun a b => b.initiative ≤ a.initiative) ∧
    (sortByInitiativeDesc l).Perm l ∧
    (∀ k : Int, (sortByInitiativeDesc l).filter (fun c => c.initiative == k) =
      l.filter (fun c => c.initiative == k)) ∧
    sortByInitiativeDesc (sortByInitiativeDesc l) = sortByInitiativeDesc l := by
  refine ⟨List.sorted_insertionSort initiativeGE l, List.perm_insertionSort initiativeGE l,
    ?_, List.Sorted.insertionSort_eq (List.sorted_insertionSort initiativeGE l)⟩
  intro k
  have hpair : (l.filter (fun c => c.initiative == k)).Pairwise initiativeGE := by
    apply List.pairwise_of_forall_mem_list
    intro a ha b hb
    have ha2 : a.initiative = k := by simpa using (List.mem_filter.mp ha).2
    have hb2 : b.initiative = k := by simpa using (List.mem_filter.mp hb).2
    unfold initiativeGE
    rw [ha2, hb2]
  have hsub : List.Sublist (l.filter (fun c => c.initiative == k)) (sortByInitiativeDesc l) :=
    List.sublist_insertionSort hpair (List.filter_sublist l)
  have hsub2 := hsub.filter (fun c => c.initiative == k)
  have hff : (l.filter (fun c => c.initiative == k)).filter (fun c => c.initiative == k) =
      l.filter (fun c => c.initiative == k) :=
    List.filter_eq_self.mpr (fun a ha => (List.mem_filter.mp ha).2)
  rw [hff] at hsub2
  have hperm : List.Perm ((sortByInitiativeDesc l).filter (fun c => c.initiative == k))
      (l.filter (fun c => c.initiative == k)) :=
    (List.perm_insertionSort initiativeGE l).filter (fun c => c.initiative == k)
  exact (List.Sublist.eq_of_length hsub2 hperm.length_eq.symm).symm

/-- C5: the `updateHP` clamp keeps the stored hit points inside
`[0, maxHP]` for every requested value, and the update is always issued
and stored (never rejected). -/
theorem updateHP_clamps (st : Storage) (c : Combatant) (newHP : Int)
    (hmax : 0 ≤ c.maxHP) (hc : getCombatant st c.id = some c) :
    0 ≤ updateHPValue c.maxHP newHP ∧
    updateHPValue c.maxHP newHP ≤ c.maxHP ∧
    (updateCombatant st c.id (clientUpdateHP c newHP)).2 =
      some { c with currentHP := updateHPValue c.maxHP newHP } := by
  refine ⟨le_max_left 0 _, max_le hmax (min_le_left _ _), ?_⟩
  unfold getCombatant at hc
  unfold updateCombatant
  rw [hc]
  rfl

/-- Example combatant used to instantiate the HP-clamp theorem. -/
def exCombatant2 : Combatant :=
  { id := "c2", sessionId := "s1", name := "B", initiative := 3,
    armorClass := 14, currentHP := 9, maxHP := 18, isActive := false }

/-- Example storage holding `exCombatant2`. -/
def exStorage2 : Storage :=
  { sessions := [exSession1], combatants := [exCombatant2] }

/-- Witness for C5: requesting 999 HP on an 18-max combatant stores 18. -/
theorem updateHP_clamps_witness :
    0 ≤ exCombatant2.maxHP ∧
    getCombatant exStorage2 "c2" = some exCombatant2 ∧
    (0 ≤ updateHPValue exCombatant2.maxHP 999 ∧
     updateHPValue exCombatant2.maxHP 999 ≤ exCombatant2.maxHP ∧
     (updateCombatant exStorage2 "c2" (clientUpdateHP exCombatant2 999)).2 =
       some { exCombatant2 with currentHP := updateHPValue exCombatant2.maxHP 999 }) :=
  ⟨by decide, rfl, updateHP_clamps exStorage2 exCombatant2 999 (by decide) rfl⟩

/-- Filtering an enumeration by an index that never occurs keeps every
element. -/
theorem filter_enumFrom_out {α : Type} (i : Int) :
    ∀ (l : List α) (n : Nat),
      (∀ k : Nat, n ≤ k → k < n + l.length → (k : Int) ≠ i) →
      ((l.enumFrom n).filter (fun p => ((p.1 : Int) != i))).map Prod.snd = l := by
  intro l
  induction l with
  | nil =>
    intro n _
    rfl
  | cons a l ih =>
    intro n hout
    have hn : (((n : Nat) : Int) != i) = true := by
      have h1 : ((n : Nat) : Int) ≠ i := hout n le_rfl (by simp)
      simpa using h1
    have tail := ih (n + 1) (fun k h1 h2 => hout k (by omega) (by simp at h2 ⊢; omega))
    simp only [List.enumFrom, List.filter_cons, hn, if_true, List.map_cons]
    rw [tail]

/-- Filtering an enumeration by an in-range index removes exactly that
position. -/
theorem filter_enumFrom_remove {α : Type} :
    ∀ (l : List α) (n j : Nat), j < l.length →
      ((l.enumFrom n).filter
        (fun p => ((p.1 : Int) != ((n + j : Nat) : Int)))).map Prod.snd =
        l.take j ++ l.drop (j + 1) := by
  intro l
  induction l with
  | nil =>
    intro n j hj
    simp at hj
  | cons a l ih =>
    intro n j hj
    cases j with
    | zero =>
      have hn : (((n : Nat) : Int) != ((n + 0 : Nat) : Int)) = false := by
        simp
      have tail := filter_enumFrom_out ((n + 0 : Nat) : Int) l (n + 1)
        (fun k h1 h2 => by
          have : ¬ (k = n + 0) := by omega
          simpa using this)
      simp only [List.enumFrom, List.filter_cons, hn, List.take, List.drop, Bool.false_eq_true,
        if_false, List.nil_append]
      exact tail
    | succ j =>
      have hn : (((n : Nat) : Int) != ((n + (j + 1) : Nat) : Int)) = true := by
        simp only [bne_iff_ne, ne_eq]
        push_cast
        omega
      have tail := ih (n + 1) j (by simpa using Nat.lt_of_succ_lt_succ hj)
      have hcast : (((n + 1) + j : Nat) : Int) = ((n + (j + 1) : Nat) : Int) := by
        push_cast
        ring
      rw [hcast] at tail
      simp only [List.enumFrom, List.filter_cons, hn, if_true, List.map_cons]
      rw [tail]
      simp [List.take_succ_cons, List.drop_succ_cons]

/-- C7: `removeStatusEffect` on an out-of-range index (negative or at least
the list length) leaves the effect list unchanged; on an in-range index it
removes exactly the element at that index and keeps the rest in order. -/
theorem removeStatusEffect_spec (effects : List StatusEffect) (i : Int) :
    ((i < 0 ∨ (effects.length : Int) ≤ i) → removeStatusEffect effects i = effects) ∧
    (0 ≤ i → i < (effects.length : Int) →
      removeStatusEffect effects i =
        effects.take i.toNat ++ effects.drop (i.toNat + 1)) := by
  constructor
  · intro hout
    unfold removeStatusEffect
    exact filter_enumFrom_out i effects 0 (fun k h1 h2 => by omega)
  · intro h0 hlen
    unfold removeStatusEffect
    have happ := filter_enumFrom_remove effects 0 i.toNat (by omega)
    have hcast : ((0 + i.toNat : Nat) : Int) = i := by
      simp [Int.toNat_of_nonneg h0]
    rw [hcast] at happ
    exact happ

/-- Example status-effect list for the removal witness. -/
def exEffects : List StatusEffect :=
  [{ name := "poisoned" }, { name := "stunned" }, { name := "prone" }]

/-- Witness for C7: index -1 and index 3 are no-ops on a 3-element list,
index 1 removes exactly the middle element. -/
theorem removeStatusEffect_spec_witness :
    removeStatusEffect exEffects (-1) = exEffects ∧
    removeStatusEffect exEffects 3 = exEffects ∧
    removeStatusEffect exEffects 1 =
      exEffects.take (1 : Int).toNat ++ exEffects.drop ((1 : Int).toNat + 1) :=
  ⟨(removeStatusEffect_spec exEffects (-1)).1 (Or.inl (by decide)),
   (removeStatusEffect_spec exEffects 3).1 (Or.inr (by decide)),
   (removeStatusEffect_spec exEffects 1).2 (by decide) (by decide)⟩

/-- C8: mutating or deleting a combatant, or updating a session, under an id
absent from the store answers an explicit not-found signal (`undefined`
result, `false` for delete) and leaves the stored state unchanged. -/
theorem notFound_noop (st : Storage) (cid sid : String)
    (uc : CombatantUpdates) (us : SessionUpdates) :
    (getCombatant st cid = none →
      updateCombatant st cid uc = (st, none) ∧
      deleteCombatant st cid = (st, false)) ∧
    (getGameSession st sid = none →
      updateGameSession st sid us = (st, none)) := by
  constructor
  · intro h
    unfold getCombatant at h
    have hall := List.find?_eq_none.mp h
    constructor
    · unfold updateCombatant
      rw [h]
    · unfold deleteCombatant
      have hfil : st.combatants.filter (fun c => !(c.id == cid)) = st.combatants :=
        List.filter_eq_self.mpr (fun a ha => by simp [hall a ha])
      have hany : st.combatants.any (fun c => c.id == cid) = false := by
        rw [List.any_eq_false]
        exact hall
      rw [hfil, hany]
  · intro h
    unfold getGameSession at h
    unfold updateGameSession
    rw [h]

/-- Witness for C8: operations under the absent id "nope". -/
theorem notFound_noop_witness :
    getCombatant exStorage1 "nope" = none ∧
    getGameSession exStorage1 "nope" = none ∧
    (updateCombatant exStorage1 "nope" {} = (exStorage1, none) ∧
     deleteCombatant exStorage1 "nope" = (exStorage1, false)) ∧
    updateGameSession exStorage1 "nope" {} = (exStorage1, none) := by
  have h := notFound_noop exStorage1 "nope" "nope" {} {}
  exact ⟨by decide, by decide, h.1 (by decide), h.2 (by decide)⟩

/-- C9: `broadcast` delivers the one serialized message to exactly the
clients whose `readyState` is OPEN (each once, in order), skips every
non-OPEN client, and is a total function of its inputs. -/
theorem broadcast_spec (clients : List WsClient) (message : String) :
    (broadcast clients message).map Prod.fst =
      clients.filter (fun c => c.readyState == WS_OPEN) ∧
    (∀ p, p ∈ broadcast clients message → p.2 = message) ∧
    (∀ c, c ∈ clients → c.readyState ≠ WS_OPEN →
      ∀ p, p ∈ broadcast clients message → p.1 ≠ c) := by
  have h1 : ∀ cl : List WsClient, (broadcast cl message).map Prod.fst =
      cl.filter (fun c => c.readyState == WS_OPEN) := by
    intro cl
    induction cl with
    | nil => rfl
    | cons c cs ih =>
      by_cases hc : (c.readyState == WS_OPEN) = true
      · simp only [broadcast, if_pos hc, List.map_cons, List.filter_cons, hc, if_true]
        rw [ih]
      · simp only [broadcast, if_neg hc, List.filter_cons]
        exact ih
  have h2 : ∀ cl : List WsClient, ∀ p, p ∈ broadcast cl message → p.2 = message := by
    intro cl
    induction cl with
    | nil =>
      intro p hp
      simp [broadcast] at hp
    | cons c cs ih =>
      intro p hp
      by_cases hc : (c.readyState == WS_OPEN) = true
      · rw [broadcast, if_pos hc] at hp
        rcases List.mem_cons.mp hp with hph | hpt
        · rw [hph]
        · exact ih p hpt
      · rw [broadcast, if_neg hc] at hp
        exact ih p hp
  refine ⟨h1 clients, h2 clients, ?_⟩
  intro c _ hcstate p hp heq
  have hmem : p.1 ∈ (broadcast clients message).map Prod.fst :=
    List.mem_map_of_mem Prod.fst hp
  rw [h1 clients] at hmem
  have hopen := (List.mem_filter.mp hmem).2
  rw [heq] at hopen
  exact hcstate (by simpa using hopen)

/-- Example client set: two OPEN viewers around one CLOSED one. -/
def exClients : List WsClient :=
  [{ clientId := 1, readyState := 1 }, { clientId := 2, readyState := 3 },
   { clientId := 3, readyState := 1 }]

/-- Witness for C9: only the two OPEN clients receive the message, each once
and in order. -/
theorem broadcast_spec_witness :
    (broadcast exClients "msg").map Prod.fst =
      exClients.filter (fun c => c.readyState == WS_OPEN) ∧
    broadcast exClients "msg" =
      [({ clientId := 1, readyState := 1 }, "msg"),
       ({ clientId := 3, readyState := 1 }, "msg")] :=
  ⟨(broadcast_spec exClients "msg").1, by decide⟩

/-- The turn advance changes only the turn and round counters of a session. -/
theorem advanceSession_frame (n : Nat) (s : GameSession) :
    (advanceSession n s).id = s.id ∧ (advanceSession n s).name = s.name ∧
    (advanceSession n s).inCombat = s.inCombat ∧
    (advanceSession n s).isActive = s.isActive := by
  unfold advanceSession
  by_cases hc : s.currentTurn + 1 ≥ (n : Int)
  · rw [if_pos hc]
    exact ⟨rfl, rfl, rfl, rfl⟩
  · rw [if_neg hc]
    exact ⟨rfl, rfl, rfl, rfl⟩

/-- C10: the next-turn route touches only `currentTurn` and `currentRound`:
the combatant store is returned unchanged and every stored session keeps
its `id`, `name`, `inCombat` and `isActive` fields. -/
theorem nextTurn_frame (st : Storage) (sid : String) :
    ((nextTurnRoute st sid).1).combatants = st.combatants ∧
    ∀ id2 : String,
      (getGameSession (nextTurnRoute st sid).1 id2).map
        (fun s => (s.id, s.name, s.inCombat, s.isActive)) =
      (getGameSession st id2).map
        (fun s => (s.id, s.name, s.inCombat, s.isActive)) := by
  cases h : getGameSession st sid with
  | none =>
    have hnone : nextTurnRoute st sid = (st, TurnResult.notFound) := by
      unfold nextTurnRoute
      rw [h]
    rw [hnone]
    exact ⟨rfl, fun _ => rfl⟩
  | some s =>
    constructor
    · rw [nextTurnRoute_found h]
    · intro id2
      by_cases hid : sid = id2
      · subst hid
        rw [nextTurnRoute_found_get h, h]
        have hfr := advanceSession_frame (getCombatants st sid).length s
        simp only [Option.map_some']
        rw [hfr.1, hfr.2.1, hfr.2.2.1, hfr.2.2.2]
      · rw [nextTurnRoute_found h]
        have h' := h
        unfold getGameSession at h'
        have hsid : s.id = sid := by simpa using List.find?_some h'
        have hpq : ∀ t : GameSession, (t.id == sid) = true → (t.id == id2) = false := by
          intro t ht
          have ht2 : t.id = sid := by simpa using ht
          rw [ht2]
          simp only [beq_eq_false_iff_ne, ne_eq]
          exact hid
        have hfr := advanceSession_frame (getCombatants st sid).length s
        have hs' : ((advanceSession (getCombatants st sid).length s).id == id2) = false := by
          rw [hfr.1, hsid]
          simp only [beq_eq_false_iff_ne, ne_eq]
          exact hid
        unfold getGameSession
        dsimp only
        rw [find?_map_replace_of_ne hpq hs']
